import Mathlib

/-!
# Verification of the PSX market-data downloader ingestion pipeline

Shallow embedding of `src/main.go` (package main of abdullah2993/psx-data-downloader).

Modelling conventions:
* Machine floats of the Go code (`float64` fields parsed by
  `strconv.ParseFloat`) are modelled by `GoFloat`: explicit ±Inf and NaN, and
  finite values carried with their exact mathematical magnitude in `ℚ`.  The
  `ParseFloat` grammar (sign, decimal or `0x` hexadecimal mantissa, `e`/`p`
  exponents, digit-separating underscores, the `inf`/`infinity`/`nan`
  specials) and its error protocol (syntax errors keep 0, overflow keeps ±Inf
  with a range error) are embedded; only the IEEE rounding of in-range finite
  results is out of scope — no claim compares two differently-written
  successful parses.  `strconv.Atoi` is embedded with its 64-bit bounds:
  overflow keeps the clamped MaxInt64/MinInt64 alongside the range error.
* The SQLite store is modelled as a list of rows; `INSERT OR REPLACE` with the
  `UNIQUE(date, symbol)` constraint removes any row with the same `(date, symbol)`
  key and appends the new row (exactly SQLite's delete-then-insert semantics;
  the `id` surrogate key plays no role in any claim and is omitted).
* Fallible externals (the sqlite driver: `db.Begin`, `tx.Prepare`, `stmt.Exec`,
  `tx.Commit`) are modelled by a `DbOracle` of success/failure outcomes; the Go
  control flow around those outcomes is translated verbatim.
* The csv reader (`encoding/csv` with `Comma = '|'`, `FieldsPerRecord = -1`) is
  modelled at its interface: a list of `reader.Read()` results, each either a
  tokenized field list or a read error.
* `time.Time` calendar dates in the backload loop are modelled as day numbers:
  both loop bounds are midnights of calendar days, `AddDate(0, 0, 1)` is
  successor and `Before` is `<` on day numbers.
* Local wall-clock instants in the scheduler are modelled as seconds in the
  fixed-offset Asia/Karachi timezone (UTC+5, no daylight saving), so the day
  containing an instant `t` starts at `t - t % 86400`.
-/

set_option maxRecDepth 16384

/-- Go `strings.TrimSpace`: drop leading and trailing whitespace. -/
def trimSpace (s : String) : String :=
  let l := s.data.dropWhile Char.isWhitespace
  String.mk ((l.reverse.dropWhile Char.isWhitespace).reverse)

/-- Numeric value of a decimal digit character. -/
def digitVal (c : Char) : Nat := c.toNat - 48

/-- Value of a list of decimal digit characters, most significant first. -/
def digitsVal (cs : List Char) : Nat :=
  cs.foldl (fun acc c => acc * 10 + digitVal c) 0

/-- ASCII lower-casing of one character (Go's month-name lookup in `time.Parse`
is ASCII-case-insensitive). -/
def lowerAscii (c : Char) : Char :=
  if c.toNat ≥ 65 ∧ c.toNat ≤ 90 then Char.ofNat (c.toNat + 32) else c

/-- Month number for a three-letter month abbreviation, case-insensitively,
as Go's `time.Parse` layout element `Jan` matches it. -/
def monthFrom3 (a b c : Char) : Option Nat :=
  match lowerAscii a, lowerAscii b, lowerAscii c with
  | 'j', 'a', 'n' => some 1
  | 'f', 'e', 'b' => some 2
  | 'm', 'a', 'r' => some 3
  | 'a', 'p', 'r' => some 4
  | 'm', 'a', 'y' => some 5
  | 'j', 'u', 'n' => some 6
  | 'j', 'u', 'l' => some 7
  | 'a', 'u', 'g' => some 8
  | 's', 'e', 'p' => some 9
  | 'o', 'c', 't' => some 10
  | 'n', 'o', 'v' => some 11
  | 'd', 'e', 'c' => some 12
  | _, _, _ => none

/-- Gregorian leap-year rule, as Go's `time` package uses it. -/
def isLeap (y : Nat) : Bool :=
  y % 4 == 0 && (y % 100 != 0 || y % 400 == 0)

/-- Days in a month, as Go's `time.Parse` validates the day field. -/
def daysIn (m y : Nat) : Nat :=
  if m == 2 then (if isLeap y then 29 else 28)
  else if m == 4 || m == 6 || m == 9 || m == 11 then 30
  else 31

/-- Go `time.Parse("02Jan2006", s)`: exactly a two-digit day, a three-letter
month abbreviation (case-insensitive) and a four-digit year, the whole string
consumed, with the day validated against the month's length.  Returns
`(year, month, day)`. -/
def parseGoDate (s : String) : Option (Nat × Nat × Nat) :=
  match s.data with
  | [d1, d2, m1, m2, m3, y1, y2, y3, y4] =>
    if d1.isDigit && d2.isDigit && y1.isDigit && y2.isDigit && y3.isDigit && y4.isDigit then
      match monthFrom3 m1 m2 m3 with
      | some m =>
        let day := digitVal d1 * 10 + digitVal d2
        let year := digitsVal [y1, y2, y3, y4]
        if 1 ≤ day ∧ day ≤ daysIn m year then some (year, m, day) else none
      | none => none
    else none
  | _ => none

/-- Two-digit zero-padded decimal rendering. -/
def pad2 (n : Nat) : String :=
  if n < 10 then "0" ++ toString n else toString n

/-- Four-digit zero-padded decimal rendering. -/
def pad4 (n : Nat) : String :=
  if n < 10 then "000" ++ toString n
  else if n < 100 then "00" ++ toString n
  else if n < 1000 then "0" ++ toString n
  else toString n

/-- Go `Format("2006-01-02")` on a parsed date: canonical `YYYY-MM-DD`. -/
def formatDate (y m d : Nat) : String :=
  pad4 y ++ "-" ++ pad2 m ++ "-" ++ pad2 d

/-- A Go `float64` value as this development needs it: a finite value is
kept with its exact mathematical magnitude in `ℚ` (IEEE rounding of in-range
finite results is out of scope: no claim compares two differently-written
successful parses), and the infinities and NaN are explicit because
`strconv.ParseFloat` produces them (overflow keeps ±Inf alongside
`ErrRange`; `inf`/`nan` spellings parse successfully). -/
inductive GoFloat where
  | finite (q : ℚ)
  | posInf
  | negInf
  | nan
deriving DecidableEq, Repr

/-- Hexadecimal digit test (both cases), as Go's float scanner accepts. -/
def isHexDig (c : Char) : Bool :=
  c.isDigit || ('a' ≤ lowerAscii c && lowerAscii c ≤ 'f')

/-- Numeric value of a hexadecimal digit character. -/
def hexDigitVal (c : Char) : Nat :=
  if c.isDigit then digitVal c else (lowerAscii c).toNat - 87

/-- Value of a list of hexadecimal digit characters, most significant first. -/
def hexVal (cs : List Char) : Nat :=
  cs.foldl (fun acc c => acc * 16 + hexDigitVal c) 0

/-- Scanner state of `underscoreOK`: beginning of the number, after a digit
(or base prefix), after an underscore, or after any other character. -/
inductive USaw where
  | start
  | digit
  | und
  | other

/-- The digit-separator scan of Go's `strconv.underscoreOK`: an underscore
may appear only between digits (hex letters count as digits only after an
`0x` prefix), and not at the end. -/
def underscoreScan (hex : Bool) : USaw → List Char → Bool
  | saw, [] =>
    match saw with
    | .und => false
    | _ => true
  | saw, c :: rest =>
    if c.isDigit || (hex && isHexDig c) then underscoreScan hex .digit rest
    else if c == '_' then
      match saw with
      | .digit => underscoreScan hex .und rest
      | _ => false
    else
      match saw with
      | .und => false
      | _ => underscoreScan hex .other rest

/-- Go `strconv.underscoreOK` on the unsigned token: a base prefix counts as
a digit, and every underscore must sit between digits. -/
def underscoreOK (cs : List Char) : Bool :=
  match cs with
  | '0' :: x :: rest =>
    if lowerAscii x == 'b' || lowerAscii x == 'o' || lowerAscii x == 'x' then
      underscoreScan (lowerAscii x == 'x') .digit rest
    else underscoreScan false .start cs
  | _ => underscoreScan false .start cs

/-- Split a character list at the first character satisfying `p`: the part
before it and, when found, the remainder after it. -/
def splitAtFirst (p : Char → Bool) : List Char → List Char × Option (List Char)
  | [] => ([], none)
  | c :: rest =>
    if p c then ([], some rest)
    else
      let q := splitAtFirst p rest
      (c :: q.1, q.2)

/-- A decimal mantissa (underscores already stripped): digits with an
optional dot, at least one digit in total.  Returns the digits' value and
the number of fractional digits. -/
def decMantissa (cs : List Char) : Option (Nat × Nat) :=
  let p := splitAtFirst (fun c => c == '.') cs
  let ip := p.1
  let fp := p.2.getD []
  if ip.all Char.isDigit && fp.all Char.isDigit && (!ip.isEmpty || !fp.isEmpty) then
    some (digitsVal (ip ++ fp), fp.length)
  else none

/-- A hexadecimal mantissa (underscores already stripped): hex digits with
an optional dot, at least one digit in total.  Returns the digits' value and
the number of fractional hex digits. -/
def hexMantissa (cs : List Char) : Option (Nat × Nat) :=
  let p := splitAtFirst (fun c => c == '.') cs
  let ip := p.1
  let fp := p.2.getD []
  if ip.all isHexDig && fp.all isHexDig && (!ip.isEmpty || !fp.isEmpty) then
    some (hexVal (ip ++ fp), fp.length)
  else none

/-- A (possibly signed) decimal exponent: at least one digit.  Go saturates
gigantic exponents at ±10000, which classifies overflow and underflow
identically to the exact value used here. -/
def expValue (cs : List Char) : Option Int :=
  match cs with
  | [] => none
  | c :: rest =>
    let neg := c == '-'
    let ds := if c == '-' || c == '+' then rest else c :: rest
    if !ds.isEmpty && ds.all Char.isDigit then
      some (if neg then -(digitsVal ds : Int) else (digitsVal ds : Int))
    else none

/-- Outcome of scanning one `ParseFloat` input: a syntax error, a special
value (`inf`/`infinity`/`nan`), or a well-formed number with sign, base
(decimal or hexadecimal), mantissa and exponent, whose exact magnitude is
`mant * base ^ exp` with base 10 or 2. -/
inductive FloatParse where
  | syntaxErr
  | special (v : GoFloat)
  | number (neg : Bool) (isHex : Bool) (mant : Nat) (exp : Int)

/-- The decimal-number branch of the scanner: optional `e`/`E` exponent over
a decimal mantissa. -/
def decNumber (neg : Bool) (cs : List Char) : FloatParse :=
  let p := splitAtFirst (fun c => c == 'e' || c == 'E') cs
  match p.2 with
  | none =>
    match decMantissa p.1 with
    | some md => .number neg false md.1 (-(md.2 : Int))
    | none => .syntaxErr
  | some ex =>
    match decMantissa p.1, expValue ex with
    | some md, some e10 => .number neg false md.1 (e10 - (md.2 : Int))
    | _, _ => .syntaxErr

/-- The scanner of Go `strconv.ParseFloat(s, 64)`, whole string consumed:
optional sign; the case-insensitive specials `inf`, `infinity`, `nan`; else
the underscore rule is checked, underscores are stripped, and the token is
read as a hexadecimal float (`0x`/`0X` mantissa with a mandatory `p`/`P`
binary exponent) or as a decimal with an optional `e`/`E` exponent. -/
def parseFloatCore (s : String) : FloatParse :=
  match s.data with
  | [] => .syntaxErr
  | c :: rest =>
    let neg := c == '-'
    let cs := if c == '-' || c == '+' then rest else c :: rest
    let lowered := cs.map lowerAscii
    if lowered = ['i', 'n', 'f'] ||
        lowered = ['i', 'n', 'f', 'i', 'n', 'i', 't', 'y'] then
      .special (if neg then .negInf else .posInf)
    else if lowered = ['n', 'a', 'n'] then
      .special .nan
    else if !underscoreOK cs then .syntaxErr
    else
      let stripped := cs.filter (fun c => !(c == '_'))
      match stripped with
      | '0' :: x :: rest2 =>
        if lowerAscii x == 'x' then
          let p := splitAtFirst (fun c => c == 'p' || c == 'P') rest2
          match p.2 with
          | none => .syntaxErr
          | some ex =>
            match hexMantissa p.1, expValue ex with
            | some md, some e2 => .number neg true md.1 (e2 - 4 * (md.2 : Int))
            | _, _ => .syntaxErr
        else decNumber neg stripped
      | _ => decNumber neg stripped

/-- The smallest magnitude that `float64` round-to-nearest-even sends to
infinity: `2^1024 - 2^970` (the midpoint between the largest finite
`float64` and `2^1024`; the tie rounds to the even `2^1024`). -/
def maxFloatCut : Nat := 2 ^ 1024 - 2 ^ 970

/-- Whether the exact magnitude `mant * base ^ exp` overflows `float64`
(`strconv.ParseFloat` then returns ±Inf with `ErrRange`). -/
def floatOverflow (base : Nat) (mant : Nat) (exp : Int) : Bool :=
  match exp with
  | .ofNat k => maxFloatCut ≤ mant * base ^ k
  | .negSucc k => maxFloatCut * base ^ (k + 1) ≤ mant

/-- The exact value `mant * base ^ exp` in `ℚ`. -/
def scaleVal (base : Nat) (mant : Nat) (exp : Int) : ℚ :=
  match exp with
  | .ofNat k => ((mant * base ^ k : Nat) : ℚ)
  | .negSucc k => (mant : ℚ) / ((base ^ (k + 1) : Nat) : ℚ)

/-- Finish a well-formed number: overflow keeps ±Inf alongside the range
error, otherwise the exact signed finite value is a success.  (Extreme
underflow rounds toward zero in Go with no error; the kept value is the
exact magnitude here, rounding being out of scope.) -/
def floatFinish (neg : Bool) (isHex : Bool) (mant : Nat) (exp : Int) :
    GoFloat × Bool :=
  let base := if isHex then 2 else 10
  if floatOverflow base mant exp then
    ((if neg then GoFloat.negInf else GoFloat.posInf), false)
  else
    (GoFloat.finite (if neg then -(scaleVal base mant exp) else scaleVal base mant exp),
      true)

/-- Go `strconv.ParseFloat(s, 64)` as `main.go` consumes it: the kept value
and whether the error was nil.  A syntax error keeps the value 0; a range
error keeps ±Inf; specials and in-range numbers succeed. -/
def goParseFloat (s : String) : GoFloat × Bool :=
  match parseFloatCore s with
  | .syntaxErr => (.finite 0, false)
  | .special v => (v, true)
  | .number neg isHex mant exp => floatFinish neg isHex mant exp

/-- The digits part of Go `strconv.Atoi` on a 64-bit platform: nonempty
decimal digits; overflow keeps the clamped `MaxInt64`/`MinInt64` alongside
the range error, a syntax error keeps 0. -/
def atoiDigits (neg : Bool) (ds : List Char) : Int × Bool :=
  if ds.isEmpty || !ds.all Char.isDigit then (0, false)
  else
    let n : Nat := digitsVal ds
    if neg then
      if 2 ^ 63 < n then (-(2 ^ 63 : Int), false) else (-(n : Int), true)
    else
      if 2 ^ 63 ≤ n then ((2 ^ 63 : Int) - 1, false) else ((n : Int), true)

/-- Go `strconv.Atoi` (= `ParseInt(s, 10, 0)` on a 64-bit platform, as the
deployment target is): optional sign then decimal digits, no underscores;
the kept value and whether the error was nil. -/
def goAtoi (s : String) : Int × Bool :=
  match s.data with
  | [] => (0, false)
  | c :: rest =>
    if c == '-' then atoiDigits true rest
    else if c == '+' then atoiDigits false rest
    else atoiDigits false (c :: rest)

/-- Go helper `parseNumeric` of `main.go`: trim, answer `0` with nil error
for the empty string, `"0"` and `"0.0"`, otherwise `strconv.ParseFloat`.
The pair is (kept value, error was nil); the caller discards the error and
stores the kept value. -/
def parseNumeric (s : String) : GoFloat × Bool :=
  let t := trimSpace s
  if t == "" || t == "0" || t == "0.0" then (.finite 0, true)
  else goParseFloat t

/-- Go helper `parseInt` of `main.go`: trim, answer `0` with nil error for
the empty string and `"0"`, otherwise `strconv.Atoi`.  The pair is (kept
value, error was nil); the caller discards the error and stores the kept
value. -/
def parseInt (s : String) : Int × Bool :=
  let t := trimSpace s
  if t == "" || t == "0" then (0, true)
  else goAtoi t

/-- One row of the `market_data` table (the auto-increment `id` surrogate key
is omitted; no claim concerns it). -/
structure MarketRecord where
  date : String
  symbol : String
  code : String
  companyName : String
  open_ : GoFloat
  high : GoFloat
  low : GoFloat
  close : GoFloat
  volume : Int
  previousClose : GoFloat
deriving DecidableEq, Repr

/-- The `UNIQUE(date, symbol)` key of a row. -/
def keyOf (r : MarketRecord) : String × String := (r.date, r.symbol)

/-- The field extraction and conversion block of `processMarketData`
(lines 249-270): parse the row's own date in `02Jan2006` form (`none` when it
fails, in which case the row is counted as an error and skipped), re-emit it
as `YYYY-MM-DD`, trim the identifying text columns and convert each numeric
column independently, keeping whatever value the converter returned and
discarding its error (`open, _ := parseNumeric(...)` and so on). -/
def buildRecord (fields : List String) : Option MarketRecord :=
  match parseGoDate (trimSpace (fields.getD 0 "")) with
  | none => none
  | some (y, m, d) =>
    some
      { date := formatDate y m d
        symbol := trimSpace (fields.getD 1 "")
        code := trimSpace (fields.getD 2 "")
        companyName := trimSpace (fields.getD 3 "")
        open_ := (parseNumeric (fields.getD 4 "")).1
        high := (parseNumeric (fields.getD 5 "")).1
        low := (parseNumeric (fields.getD 6 "")).1
        close := (parseNumeric (fields.getD 7 "")).1
        volume := (parseInt (fields.getD 8 "")).1
        previousClose := (parseNumeric (fields.getD 9 "")).1 }

example : parseGoDate "01Jan2024" = some (2024, 1, 1) := by decide
example : formatDate 2024 1 1 = "2024-01-01" := by decide
example : (parseNumeric "9.5").2 = true := by decide
example : parseInt "-5" = (-5, true) := by decide
example : parseInt "1000" = (1000, true) := by decide
example : parseNumeric "xx" = (GoFloat.finite 0, false) := by decide
example : parseNumeric "" = (GoFloat.finite 0, true) := by decide
example : (parseNumeric "1e2").2 = true := by decide
example : parseNumeric "inf" = (GoFloat.posInf, true) := by decide
example : parseNumeric "-Infinity" = (GoFloat.negInf, true) := by decide
example : parseNumeric "NaN" = (GoFloat.nan, true) := by decide
example : parseNumeric "1e400" = (GoFloat.posInf, false) := by decide
example : parseNumeric "-1e400" = (GoFloat.negInf, false) := by decide
example : (parseNumeric "1_0.5").2 = true := by decide
example : parseNumeric "1_.5" = (GoFloat.finite 0, false) := by decide
example : parseNumeric "1e" = (GoFloat.finite 0, false) := by decide
example : (parseNumeric "0x1p4").2 = true := by decide
example : parseNumeric "0x1" = (GoFloat.finite 0, false) := by decide
example : parseInt "9223372036854775807" = (9223372036854775807, true) := by decide
example : parseInt "9223372036854775808" = (9223372036854775807, false) := by decide
example : parseInt "99999999999999999999" = (9223372036854775807, false) := by decide
example : parseInt "-9223372036854775808" = (-9223372036854775808, true) := by decide
example : parseInt "-9223372036854775809" = (-9223372036854775808, false) := by decide
example : parseInt "1_0" = (0, false) := by decide
example : parseGoDate "1Jan2024" = none := by decide
example : parseGoDate "31Feb2024" = none := by decide
example : parseGoDate "29Feb2024" = some (2024, 2, 29) := by decide
example : parseGoDate "29FEB2024" = some (2024, 2, 29) := by decide

/-- The `market_data` table contents, as the list of its rows. -/
abbrev Store := List MarketRecord

/-- `INSERT OR REPLACE` under the `UNIQUE(date, symbol)` constraint
(lines 210-214): any existing row with the same `(date, symbol)` key is
removed and the new row is inserted. -/
def upsertRow (store : Store) (r : MarketRecord) : Store :=
  store.filter (fun x => !(decide (keyOf x = keyOf r))) ++ [r]

/-- Folding a list of rows into the store through `upsertRow`. -/
def upsertAll (store : Store) (rs : List MarketRecord) : Store :=
  rs.foldl upsertRow store

/-- The uniqueness invariant of the schema: no two rows share a
`(date, symbol)` key. -/
def KeysUnique (store : Store) : Prop :=
  (store.map keyOf).Nodup

instance : DecidablePred KeysUnique := fun store =>
  inferInstanceAs (Decidable (store.map keyOf).Nodup)

/-- Outcomes of the fallible sqlite driver calls of one `processMarketData`
run: `db.Begin`, `tx.Prepare`, `stmt.Exec` (per record) and `tx.Commit`. -/
structure DbOracle where
  beginOk : Bool
  prepareOk : Bool
  commitOk : Bool
  execOk : MarketRecord → Bool

/-- The oracle under which every driver call succeeds. -/
def honestDb : DbOracle :=
  { beginOk := true, prepareOk := true, commitOk := true, execOk := fun _ => true }

/-- One result of `reader.Read()` on the pipe-delimited csv reader: a
tokenized field list, or a tokenization error (`csv` read error). -/
inductive ReadResult where
  | ok (fields : List String)
  | err
deriving DecidableEq, Repr

/-- Mutable state of the record loop of `processMarketData` (lines 221-281):
the transaction's pending view of the table and the two counters. -/
structure LoopState where
  pending : Store
  recordCount : Nat
  errorCount : Nat
deriving Repr

/-- One iteration of the record loop (lines 225-281), translated branch by
branch: a reader error counts as an error and continues; a zero-field record
is skipped silently; a record with fewer than 10 fields counts as an error; a
record whose own date does not parse counts as an error; otherwise the row is
built and `stmt.Exec` is attempted — on failure the row counts as an error,
on success it lands in the transaction and `recordCount` increments. -/
def processRecord (o : DbOracle) (st : LoopState) (rr : ReadResult) : LoopState :=
  match rr with
  | .err => { st with errorCount := st.errorCount + 1 }
  | .ok fields =>
    if fields.length = 0 then st
    else if fields.length < 10 then { st with errorCount := st.errorCount + 1 }
    else
      match buildRecord fields with
      | none => { st with errorCount := st.errorCount + 1 }
      | some r =>
        if o.execOk r then
          { st with pending := upsertRow st.pending r, recordCount := st.recordCount + 1 }
        else { st with errorCount := st.errorCount + 1 }

/-- The whole record loop: left fold of `processRecord` over the reader's
results, in file order. -/
def runLoop (o : DbOracle) (st : LoopState) (rows : List ReadResult) : LoopState :=
  rows.foldl (processRecord o) st

/-- Steps 4-6 of `processMarketData` (lines 203-291): begin a transaction,
prepare the statement, run the record loop against the transaction's pending
view of the table, and commit.  On a begin, prepare or commit failure the
function returns the wrapped error and nothing of the batch becomes durable;
on success it returns the new table contents and the two counters. -/
def upsertBatch (o : DbOracle) (store : Store) (rows : List ReadResult) :
    Except String (Store × Nat × Nat) :=
  if !o.beginOk then .error "failed to begin transaction"
  else if !o.prepareOk then .error "failed to prepare insert statement"
  else
    let fin := runLoop o ⟨store, 0, 0⟩ rows
    if o.commitOk then .ok (fin.pending, fin.recordCount, fin.errorCount)
    else .error "failed to commit transaction"

/-- The durable table contents after one ingestion attempt: the committed
contents on success, the unchanged prior contents when the attempt failed
(transaction atomicity). -/
def ingest (o : DbOracle) (store : Store) (rows : List ReadResult) : Store :=
  match upsertBatch o store rows with
  | .ok p => p.1
  | .error _ => store

/-- One entry of a zip archive as `archive/zip` exposes it: its stored name,
and its contents when `file.Open`/`io.ReadAll` succeed (`none` models a read
failure on that entry). -/
structure ZipEntry where
  name : String
  content : Option (List Nat)
deriving DecidableEq, Repr

/-- A downloaded byte blob, at the interface the code probes it through:
`zipEntries` is the entry listing when `zip.NewReader` succeeds on the blob
(`none` when the bytes are not an archive container), and `streamContent` is
the decompressed content when the bytes form a valid single compressed
stream — a property of the bytes that `main.go` never consults. -/
structure RawBlob where
  zipEntries : Option (List ZipEntry)
  streamContent : Option (List Nat)
deriving DecidableEq, Repr

/-- Step 2 of `processMarketData` (lines 137-167): parse the blob as a zip
archive (error on failure), read the first entry (error when reading it
fails), and fail with `"no files found in the archive"` when the listing is
empty.  No other interpretation of the blob is attempted. -/
def extractPayload (b : RawBlob) : Except String (List Nat × String) :=
  match b.zipEntries with
  | none => .error "failed to parse zip file"
  | some [] => .error "no files found in the archive"
  | some (e :: _) =>
    match e.content with
    | none => .error "failed to read file within zip"
    | some data => .ok (data, e.name)

/-- `processMarketData` from the downloaded blob onward: extract the payload
from the archive, tokenize it (`rowsOf` abstracts the `encoding/csv` reader
over the payload bytes) and run the transactional upsert.  Errors of either
stage propagate unchanged. -/
def processMarketData (o : DbOracle) (store : Store) (b : RawBlob)
    (rowsOf : List Nat → List ReadResult) : Except String (Store × Nat × Nat) :=
  match extractPayload b with
  | .error e => .error e
  | .ok p => upsertBatch o store (rowsOf p.1)

/-- The backload loop of `backloadData` (lines 94-108) over day numbers:
while `currentDate.Before(endDate)`, invoke `processMarketData` for the
current day (its success or failure, given by the `fails` oracle, only
selects which line is logged) and step to the next day.  The returned list
is the sequence of days for which `processMarketData` is invoked, in
invocation order. -/
def backloadData (fails : Nat → Bool) (current endDate : Nat) : List Nat :=
  if current < endDate then
    let _ := fails current
    current :: backloadData fails (current + 1) endDate
  else []
termination_by endDate - current
decreasing_by omega

/-- The next-trigger computation of the daily loop (lines 67-76) on local
Karachi seconds: today's 23:00 instant, rolled to tomorrow when `now` is
already past it (`now.After(nextRun)`). -/
def nextRun (now : Nat) : Nat :=
  let dayStart := now - now % 86400
  let trigger := dayStart + 23 * 3600
  if trigger < now then trigger + 86400 else trigger

/-- The rows of a batch that survive keep-last deduplication on the
`(date, symbol)` key: a row is kept exactly when no later row of the batch
shares its key.  This is the canonical tail that `upsertAll` appends to the
store. -/
def dedupLast : List MarketRecord → List MarketRecord
  | [] => []
  | r :: rs => if keyOf r ∈ rs.map keyOf then dedupLast rs else r :: dedupLast rs

/-- The records of one reader-result list that reach a successful
`stmt.Exec` in the record loop: tokenized, non-empty, at least 10 fields,
own date parsed, and the statement execution succeeded. -/
def okRecords (o : DbOracle) (rows : List ReadResult) : List MarketRecord :=
  rows.filterMap fun rr =>
    match rr with
    | .err => none
    | .ok fields =>
      if fields.length = 0 then none
      else if fields.length < 10 then none
      else
        match buildRecord fields with
        | none => none
        | some r => if o.execOk r then some r else none

/-- A default row, used only as the `Option.getD` fallback when naming the row
a successful `buildRecord` produced. -/
def fallbackRecord : MarketRecord :=
  { date := "", symbol := "", code := "", companyName := "",
    open_ := .finite 0, high := .finite 0, low := .finite 0, close := .finite 0,
    volume := 0, previousClose := .finite 0 }

/-- The well-formed example row of the spec's end-to-end example. -/
def exampleFields : List String :=
  ["01Jan2024", "AAA", "001", "Acme Corp", "10", "12", "9", "11", "1000", "9.5"]

/-- The spec's end-to-end example payload: the well-formed row and a malformed
three-field row. -/
def exampleRows : List ReadResult :=
  [.ok exampleFields, .ok ["x", "y", "z"]]

/-- A ten-field row whose `open` and `volume` fields are unparsable. -/
def exampleBadFields : List String :=
  ["01Jan2024", "AAA", "001", "Acme Corp", "xx", "12", "9", "11", "bad", "9.5"]

/-- The row `buildRecord` produces from `exampleBadFields`, field by field. -/
def badNumericRecord : MarketRecord :=
  { date := formatDate 2024 1 1
    symbol := trimSpace "AAA"
    code := trimSpace "001"
    companyName := trimSpace "Acme Corp"
    open_ := (parseNumeric "xx").1
    high := (parseNumeric "12").1
    low := (parseNumeric "9").1
    close := (parseNumeric "11").1
    volume := (parseInt "bad").1
    previousClose := (parseNumeric "9.5").1 }

/-- A ten-field row whose open field overflows `float64` and whose volume
field overflows `int64`. -/
def overflowFields : List String :=
  ["01Jan2024", "AAA", "001", "Acme Corp", "1e400", "2", "3", "4",
    "99999999999999999999", "6"]

/-- A ten-field row whose volume field is the negative integer literal `-5`. -/
def negVolFields : List String :=
  ["01Jan2024", "AAA", "001", "Acme Corp", "1", "2", "3", "4", "-5", "6"]

/-- A ten-field row whose volume field is unparsable. -/
def unparsableVolFields : List String :=
  ["01Jan2024", "AAA", "001", "Acme Corp", "1", "2", "3", "4", "zz", "6"]

/-- The row `buildRecord` produces from `unparsableVolFields`, field by field. -/
def unparsableVolRecord : MarketRecord :=
  { date := formatDate 2024 1 1
    symbol := trimSpace "AAA"
    code := trimSpace "001"
    companyName := trimSpace "Acme Corp"
    open_ := (parseNumeric "1").1
    high := (parseNumeric "2").1
    low := (parseNumeric "3").1
    close := (parseNumeric "4").1
    volume := (parseInt "zz").1
    previousClose := (parseNumeric "6").1 }

/-- A ten-field row whose first field is not a calendar date (February 31). -/
def badDateFields : List String :=
  ["31Feb2024", "AAA", "001", "Acme Corp", "1", "2", "3", "4", "5", "6"]

theorem upsertAll_cons (s : Store) (r : MarketRecord) (rs : List MarketRecord) :
    upsertAll s (r :: rs) = upsertAll (upsertRow s r) rs := rfl

theorem mem_dedupLast_keys {x : MarketRecord} :
    ∀ {rs : List MarketRecord}, x ∈ dedupLast rs → keyOf x ∈ rs.map keyOf := by
  intro rs
  induction rs with
  | nil => intro h; simp [dedupLast] at h
  | cons r rs ih =>
    intro h
    simp only [dedupLast] at h
    by_cases hc : keyOf r ∈ rs.map keyOf
    · rw [if_pos hc] at h
      simp [ih h]
    · rw [if_neg hc] at h
      rcases List.mem_cons.mp h with h1 | h2
      · simp [h1]
      · simp [ih h2]

theorem upsertAll_eq (rs : List MarketRecord) :
    ∀ s : Store,
      upsertAll s rs =
        s.filter (fun x => !(decide (keyOf x ∈ rs.map keyOf))) ++ dedupLast rs := by
  induction rs with
  | nil =>
    intro s
    simp [upsertAll, dedupLast]
  | cons r rs ih =>
    intro s
    rw [upsertAll_cons, ih]
    unfold upsertRow
    rw [List.filter_append, List.filter_filter]
    have hpred : ∀ a : MarketRecord,
        ((!decide (keyOf a ∈ rs.map keyOf)) && (!decide (keyOf a = keyOf r))) =
          (!decide (keyOf a ∈ (r :: rs).map keyOf)) := by
      intro a
      by_cases h1 : keyOf a = keyOf r <;> by_cases h2 : keyOf a ∈ rs.map keyOf <;>
        simp [h1, h2]
    rw [List.filter_congr fun a _ => hpred a, List.append_assoc]
    congr 1
    by_cases hc : keyOf r ∈ rs.map keyOf
    · simp only [dedupLast, if_pos hc]
      have h1 : (!decide (keyOf r ∈ rs.map keyOf)) = false := by simp [hc]
      simp [List.filter_cons, h1]
      exact List.mem_map.mp hc
    · simp only [dedupLast, if_neg hc]
      have hforall : ∀ x ∈ rs, ¬keyOf x = keyOf r :=
        fun x hx heq => hc (List.mem_map.mpr ⟨x, hx, heq⟩)
      rw [List.filter_cons]
      rw [if_pos (by simpa using hforall)]
      rfl

theorem dedupLast_filter_out (rs : List MarketRecord) :
    (dedupLast rs).filter (fun x => !(decide (keyOf x ∈ rs.map keyOf))) = [] := by
  rw [List.filter_eq_nil_iff]
  intro a ha
  simp [mem_dedupLast_keys ha]

theorem upsertAll_idem (s : Store) (rs : List MarketRecord) :
    upsertAll (upsertAll s rs) rs = upsertAll s rs := by
  conv_lhs => rw [upsertAll_eq rs (upsertAll s rs), upsertAll_eq rs s]
  conv_rhs => rw [upsertAll_eq rs s]
  rw [List.filter_append, List.filter_filter]
  have h1 : (List.filter (fun x => !(decide (keyOf x ∈ rs.map keyOf)) &&
      !(decide (keyOf x ∈ rs.map keyOf))) s) =
      List.filter (fun x => !(decide (keyOf x ∈ rs.map keyOf))) s :=
    List.filter_congr fun a _ => by by_cases h : keyOf a ∈ rs.map keyOf <;> simp [h]
  rw [h1, dedupLast_filter_out]
  simp

theorem keysUnique_upsertRow {s : Store} (h : KeysUnique s) (r : MarketRecord) :
    KeysUnique (upsertRow s r) := by
  unfold KeysUnique upsertRow at *
  rw [List.map_append, List.nodup_append]
  refine ⟨h.sublist ((List.filter_sublist s).map keyOf), by simp, ?_⟩
  intro k hk hk2
  simp only [List.map_cons, List.map_nil, List.mem_singleton] at hk2
  obtain ⟨x, hxmem, hxkey⟩ := List.mem_map.mp hk
  have hx := (List.mem_filter.mp hxmem).2
  simp only [Bool.not_eq_true', decide_eq_false_iff_not] at hx
  exact hx (hxkey.trans hk2)

theorem keysUnique_upsertAll {s : Store} (h : KeysUnique s) (rs : List MarketRecord) :
    KeysUnique (upsertAll s rs) := by
  induction rs generalizing s with
  | nil => exact h
  | cons r rs ih => exact ih (keysUnique_upsertRow h r)

theorem runLoop_cons (o : DbOracle) (st : LoopState) (rr : ReadResult)
    (rows : List ReadResult) :
    runLoop o st (rr :: rows) = runLoop o (processRecord o st rr) rows := rfl

theorem runLoop_pending (o : DbOracle) (rows : List ReadResult) :
    ∀ st : LoopState,
      (runLoop o st rows).pending = upsertAll st.pending (okRecords o rows) := by
  induction rows with
  | nil => intro st; rfl
  | cons rr rows ih =>
    intro st
    rw [runLoop_cons, ih]
    cases rr with
    | err => simp [processRecord, okRecords, List.filterMap_cons]
    | ok fields =>
      by_cases h0 : fields.length = 0
      · simp [processRecord, okRecords, h0, List.filterMap_cons]
      · have hne : ¬(fields = []) := fun h => h0 (by simp [h])
        by_cases h10 : fields.length < 10
        · simp [processRecord, okRecords, h0, hne, h10, List.filterMap_cons]
        · cases hb : buildRecord fields with
          | none =>
            simp [processRecord, okRecords, h0, hne, h10, hb, List.filterMap_cons]
          | some r =>
            by_cases hex : o.execOk r
            · simp [processRecord, okRecords, h0, hne, h10, hb, hex,
                List.filterMap_cons, upsertAll]
            · simp [processRecord, okRecords, h0, hne, h10, hb, hex,
                List.filterMap_cons]

theorem ingest_eq (o : DbOracle) (store : Store) (rows : List ReadResult) :
    ingest o store rows =
      if o.beginOk && o.prepareOk && o.commitOk then
        upsertAll store (okRecords o rows)
      else store := by
  unfold ingest upsertBatch
  cases hb : o.beginOk <;> cases hp : o.prepareOk <;> cases hc : o.commitOk <;>
    simp [hb, hp, hc, runLoop_pending]

theorem keysUnique_ingest {s : Store} (h : KeysUnique s) (o : DbOracle)
    (rows : List ReadResult) : KeysUnique (ingest o s rows) := by
  rw [ingest_eq]
  by_cases hc : (o.beginOk && o.prepareOk && o.commitOk) = true
  · simp only [hc, if_true]
    exact keysUnique_upsertAll h (okRecords o rows)
  · simp only [hc, if_false]
    exact h

theorem atoiDigits_cases (neg : Bool) (ds : List Char) :
    ((atoiDigits neg ds).2 = false →
      (atoiDigits neg ds).1 = 0 ∨ (atoiDigits neg ds).1 = 2 ^ 63 - 1 ∨
        (atoiDigits neg ds).1 = -(2 ^ 63)) ∧
    -(2 ^ 63) ≤ (atoiDigits neg ds).1 ∧ (atoiDigits neg ds).1 ≤ 2 ^ 63 - 1 := by
  unfold atoiDigits
  by_cases h1 : (ds.isEmpty || !ds.all Char.isDigit) = true
  · rw [if_pos h1]
    exact ⟨fun _ => Or.inl rfl, by decide, by decide⟩
  · rw [if_neg h1]
    cases neg with
    | true =>
      by_cases h2 : 2 ^ 63 < digitsVal ds
      · rw [if_pos rfl, if_pos h2]
        exact ⟨fun _ => Or.inr (Or.inr rfl), by decide, by decide⟩
      · rw [if_pos rfl, if_neg h2]
        refine ⟨fun hc => absurd hc (by simp), ?_, ?_⟩
        · have hb : digitsVal ds ≤ 2 ^ 63 := by omega
          omega
        · omega
    | false =>
      by_cases h2 : 2 ^ 63 ≤ digitsVal ds
      · rw [if_neg (by simp), if_pos h2]
        exact ⟨fun _ => Or.inr (Or.inl rfl), by decide, by decide⟩
      · rw [if_neg (by simp), if_neg h2]
        refine ⟨fun hc => absurd hc (by simp), by omega, by omega⟩

theorem goAtoi_cases (t : String) :
    ((goAtoi t).2 = false →
      (goAtoi t).1 = 0 ∨ (goAtoi t).1 = 2 ^ 63 - 1 ∨ (goAtoi t).1 = -(2 ^ 63)) ∧
    -(2 ^ 63) ≤ (goAtoi t).1 ∧ (goAtoi t).1 ≤ 2 ^ 63 - 1 := by
  rcases hd : t.data with _ | ⟨c, rest⟩ <;> simp only [goAtoi, hd]
  · exact ⟨fun _ => Or.inl trivial, by decide, by decide⟩
  · by_cases hc1 : (c == '-') = true
    · rw [if_pos hc1]
      exact atoiDigits_cases true rest
    · rw [if_neg hc1]
      by_cases hc2 : (c == '+') = true
      · rw [if_pos hc2]
        exact atoiDigits_cases false rest
      · rw [if_neg hc2]
        exact atoiDigits_cases false (c :: rest)

theorem parseInt_cases (t : String) :
    ((parseInt t).2 = false →
      (parseInt t).1 = 0 ∨ (parseInt t).1 = 2 ^ 63 - 1 ∨ (parseInt t).1 = -(2 ^ 63)) ∧
    -(2 ^ 63) ≤ (parseInt t).1 ∧ (parseInt t).1 ≤ 2 ^ 63 - 1 := by
  simp only [parseInt]
  by_cases h : (trimSpace t == "" || trimSpace t == "0") = true
  · rw [if_pos h]
    exact ⟨fun hc => absurd hc (by simp), by decide, by decide⟩
  · rw [if_neg h]
    exact goAtoi_cases (trimSpace t)

theorem goParseFloat_fail (t : String) :
    (goParseFloat t).2 = false →
      (goParseFloat t).1 = GoFloat.finite 0 ∨ (goParseFloat t).1 = GoFloat.posInf ∨
        (goParseFloat t).1 = GoFloat.negInf := by
  rcases hp : parseFloatCore t with _ | v | ⟨neg, isHex, mant, exp⟩ <;>
    simp only [goParseFloat, hp]
  · exact fun _ => Or.inl trivial
  · simp
  · simp only [floatFinish]
    by_cases ho : floatOverflow (if isHex then 2 else 10) mant exp = true
    · rw [if_pos ho]
      cases neg
      · exact fun _ => Or.inr (Or.inl rfl)
      · exact fun _ => Or.inr (Or.inr rfl)
    · rw [if_neg ho]
      simp

theorem parseNumeric_fail (t : String) :
    (parseNumeric t).2 = false →
      (parseNumeric t).1 = GoFloat.finite 0 ∨ (parseNumeric t).1 = GoFloat.posInf ∨
        (parseNumeric t).1 = GoFloat.negInf := by
  simp only [parseNumeric]
  by_cases h : (trimSpace t == "" || trimSpace t == "0" || trimSpace t == "0.0") = true
  · rw [if_pos h]
    simp
  · rw [if_neg h]
    exact goParseFloat_fail (trimSpace t)

theorem backloadData_atFuel (fails : Nat → Bool) :
    ∀ (n s : Nat), backloadData fails s (s + n) = (List.range n).map (fun i => s + i) := by
  intro n
  induction n with
  | zero =>
    intro s
    rw [backloadData]
    simp
  | succ n ih =>
    intro s
    rw [backloadData, if_pos (by omega)]
    have h2 : s + (n + 1) = (s + 1) + n := by omega
    rw [h2, ih (s + 1), List.range_succ_eq_map, List.map_cons, List.map_map]
    have hf : ((fun i => s + i) ∘ Nat.succ) = fun i => (s + 1) + i := by
      funext i
      simp only [Function.comp_apply, Nat.succ_eq_add_one]
      omega
    rw [hf]
    simp

theorem backloadData_spec (fails : Nat → Bool) (s e : Nat) :
    backloadData fails s e = (List.range (e - s)).map (fun i => s + i) := by
  rcases Nat.le_total s e with h | h
  · obtain ⟨n, rfl⟩ : ∃ n, e = s + n := ⟨e - s, by omega⟩
    rw [backloadData_atFuel, Nat.add_sub_cancel_left]
  · have h0 : e - s = 0 := by omega
    rw [backloadData, if_neg (by omega), h0]
    simp

theorem backloadData_mem (fails : Nat → Bool) (s e d : Nat) :
    d ∈ backloadData fails s e ↔ s ≤ d ∧ d < e := by
  rw [backloadData_spec]
  simp only [List.mem_map, List.mem_range]
  constructor
  · rintro ⟨i, hi, rfl⟩
    omega
  · rintro ⟨h1, h2⟩
    exact ⟨d - s, by omega, by omega⟩

theorem backloadData_nodup (fails : Nat → Bool) (s e : Nat) :
    (backloadData fails s e).Nodup := by
  rw [backloadData_spec]
  exact List.Nodup.map (fun a b hab => by omega) (List.nodup_range _)

/-- C1 (counterexample): the backfill range with start = end = day 0 is valid
(the start is not after the end) and the claim demands one ingestion for day 0
(start to end inclusive), but `backloadData` iterates with a strict `Before`
test and invokes `processMarketData` for no date at all. -/
theorem c1_counterexample :
    backloadData (fun _ => false) 0 0 = [] ∧
    (backloadData (fun _ => false) 0 0).count 0 = 0 := by
  constructor <;> simp [backloadData]

/-- C1 (amended): for every backfill range, `backloadData` invokes
`processMarketData` exactly once for every calendar date from the start date
inclusive to the end date EXCLUSIVE, in ascending date order, and the
invocation sequence does not depend on which dates' ingestions fail (a
failure never stops the iteration). -/
theorem c1_amended (fails fails2 : Nat → Bool) (startDate endDate : Nat) :
    backloadData fails startDate endDate =
      (List.range (endDate - startDate)).map (fun i => startDate + i) ∧
    backloadData fails startDate endDate = backloadData fails2 startDate endDate ∧
    (∀ d : Nat,
      (backloadData fails startDate endDate).count d =
        if startDate ≤ d ∧ d < endDate then 1 else 0) ∧
    (backloadData fails startDate endDate).Sorted (· < ·) := by
  refine ⟨backloadData_spec _ _ _, ?_, ?_, ?_⟩
  · rw [backloadData_spec, backloadData_spec]
  · intro d
    by_cases hd : startDate ≤ d ∧ d < endDate
    · rw [if_pos hd]
      exact List.count_eq_one_of_mem (backloadData_nodup _ _ _)
        ((backloadData_mem _ _ _ _).mpr hd)
    · rw [if_neg hd]
      exact List.count_eq_zero_of_not_mem
        (fun hmem => hd ((backloadData_mem _ _ _ _).mp hmem))
  · rw [backloadData_spec]
    exact List.Pairwise.map _ (fun a b hab => by omega) (List.pairwise_lt_range _)

/-- C2 (counterexample): a blob that is not an archive container but does
carry valid single-stream content `[1, 2, 3]`: the claim demands the
decompressed stream bytes, but ingestion fails immediately with the
zip-parse error. -/
theorem c2_counterexample :
    (RawBlob.mk none (some [1, 2, 3])).streamContent = some [1, 2, 3] ∧
    extractPayload (RawBlob.mk none (some [1, 2, 3])) =
      .error "failed to parse zip file" ∧
    processMarketData honestDb [] (RawBlob.mk none (some [1, 2, 3])) (fun _ => []) =
      .error "failed to parse zip file" :=
  ⟨rfl, rfl, rfl⟩

/-- C2 (amended): for every input blob that cannot be interpreted as an
archive container, the ingestion for that date fails immediately with the
zip-parse error; no interpretation of the bytes as a single compressed stream
is ever attempted, whatever stream content the bytes may carry. -/
theorem c2_amended (o : DbOracle) (store : Store) (b : RawBlob)
    (rowsOf : List Nat → List ReadResult) (h : b.zipEntries = none) :
    extractPayload b = .error "failed to parse zip file" ∧
    processMarketData o store b rowsOf = .error "failed to parse zip file" := by
  obtain ⟨z, sc⟩ := b
  have hz : z = none := h
  subst hz
  exact ⟨rfl, rfl⟩

theorem c2_witness :
    extractPayload (RawBlob.mk none none) = .error "failed to parse zip file" ∧
    processMarketData honestDb [] (RawBlob.mk none none) (fun _ => []) =
      .error "failed to parse zip file" :=
  c2_amended honestDb [] (RawBlob.mk none none) (fun _ => []) rfl

/-- C3: ingesting the same date's reader output twice leaves exactly the
rows a single ingestion leaves (the second run replaces the existing
`(date, symbol)` rows instead of duplicating them), and after any number of
ingestions on a store whose keys are unique, at most one row exists per
`(date, symbol)` pair. -/
theorem c3_idempotent_unique (o : DbOracle) (store : Store) (rows : List ReadResult)
    (batches : List (List ReadResult)) (h : KeysUnique store) :
    ingest o (ingest o store rows) rows = ingest o store rows ∧
    KeysUnique (batches.foldl (fun s b => ingest o s b) store) ∧
    ∀ k : String × String,
      ((batches.foldl (fun s b => ingest o s b) store).map keyOf).count k ≤ 1 := by
  have hfold : ∀ (bs : List (List ReadResult)) (s : Store), KeysUnique s →
      KeysUnique (bs.foldl (fun s b => ingest o s b) s) := by
    intro bs
    induction bs with
    | nil => exact fun s hs => hs
    | cons b bs ih => exact fun s hs => ih _ (keysUnique_ingest hs o b)
  refine ⟨?_, hfold batches store h, fun k => ?_⟩
  case refine_2 =>
    have hn := List.nodup_iff_count_le_one.mp (hfold batches store h) k
    have heq : ((batches.foldl (fun s b => ingest o s b) store).map keyOf).count k =
        @List.count _ instBEqOfDecidableEq k
          ((batches.foldl (fun s b => ingest o s b) store).map keyOf) := by
      simp only [List.count]
      refine List.countP_congr fun a _ => ?_
      show (a == k) = true ↔ decide (a = k) = true
      by_cases hh : a = k
      · subst hh
        simp
      · simp [hh]
    rw [heq]
    exact hn
  rw [ingest_eq o store rows, ingest_eq]
  by_cases hc : (o.beginOk && o.prepareOk && o.commitOk) = true
  · simp only [hc, if_true]
    exact upsertAll_idem store (okRecords o rows)
  · simp [hc]

theorem c3_witness :
    ingest honestDb (ingest honestDb [] [ReadResult.err]) [ReadResult.err] =
      ingest honestDb [] [ReadResult.err] ∧
    KeysUnique ([[ReadResult.err]].foldl (fun s b => ingest honestDb s b) []) := by
  have h := c3_idempotent_unique honestDb [] [ReadResult.err] [[ReadResult.err]]
    (by simp [KeysUnique])
  exact ⟨h.1, h.2.1⟩

/-- C4: a failed `stmt.Exec` on one record increments the error count and the
loop continues with the next record, while a failure to open the transaction
or to commit it makes the whole ingestion return an error and leaves the
durable store unchanged (no row of the batch is durable). -/
theorem c4_transaction_policy (o : DbOracle) (store : Store) (rows : List ReadResult)
    (st : LoopState) (fields : List String) (r : MarketRecord)
    (rest : List ReadResult) :
    (o.beginOk = false →
      upsertBatch o store rows = .error "failed to begin transaction" ∧
      ingest o store rows = store) ∧
    (o.beginOk = true → o.prepareOk = true → o.commitOk = false →
      upsertBatch o store rows = .error "failed to commit transaction" ∧
      ingest o store rows = store) ∧
    (10 ≤ fields.length → buildRecord fields = some r → o.execOk r = false →
      processRecord o st (.ok fields) = { st with errorCount := st.errorCount + 1 } ∧
      runLoop o st (.ok fields :: rest) =
        runLoop o { st with errorCount := st.errorCount + 1 } rest) := by
  refine ⟨?_, ?_, ?_⟩
  · intro hb
    constructor <;> simp [upsertBatch, ingest, hb]
  · intro hb hp hc
    constructor <;> simp [upsertBatch, ingest, hb, hp, hc]
  · intro hlen hbr hex
    have h0 : ¬(fields.length = 0) := by omega
    have h10 : ¬(fields.length < 10) := by omega
    have hstep : processRecord o st (.ok fields) =
        { st with errorCount := st.errorCount + 1 } := by
      simp [processRecord, h0, h10, hbr, hex]
    exact ⟨hstep, by rw [runLoop_cons, hstep]⟩

theorem c4_witness :
    (upsertBatch (DbOracle.mk false true true fun _ => true) [] [] =
        .error "failed to begin transaction" ∧
      ingest (DbOracle.mk false true true fun _ => true) [] [] = []) ∧
    (upsertBatch (DbOracle.mk true true false fun _ => true) [] [] =
        .error "failed to commit transaction" ∧
      ingest (DbOracle.mk true true false fun _ => true) [] [] = []) ∧
    (processRecord (DbOracle.mk true true true fun _ => false) ⟨[], 0, 0⟩
        (.ok exampleFields) = ⟨[], 0, 1⟩ ∧
      runLoop (DbOracle.mk true true true fun _ => false) ⟨[], 0, 0⟩
        [.ok exampleFields] = ⟨[], 0, 1⟩) := by
  have h := c4_transaction_policy (DbOracle.mk false true true fun _ => true) [] []
    ⟨[], 0, 0⟩ exampleFields fallbackRecord []
  have h2 := c4_transaction_policy (DbOracle.mk true true false fun _ => true) [] []
    ⟨[], 0, 0⟩ exampleFields fallbackRecord []
  have h3 := c4_transaction_policy (DbOracle.mk true true true fun _ => false) [] []
    ⟨[], 0, 0⟩ exampleFields ((buildRecord exampleFields).getD fallbackRecord) []
  exact ⟨h.1 rfl, h2.2.1 rfl rfl rfl, h3.2.2 (by decide) rfl rfl⟩

/-- C5: Go's csv reader (`encoding/csv` with `FieldsPerRecord = -1`) skips
blank lines inside `Read` and never returns a record with zero fields, so
every row the loop sees has at least one field (the `len(record) == 0`
branch is dead defensive code); every parsed row with fewer than 10 fields
is excluded from the inserted count, increments the error count by exactly
one, and never aborts the processing of subsequent rows; and the end-to-end
example payload of the well-formed row and a malformed 3-field row yields
insertedCount = 1, errorCount = 1, and one stored row with date 2024-01-01,
symbol AAA and volume 1000. -/
theorem c5_short_rows (o : DbOracle) (st : LoopState) (fields : List String)
    (rest : List ReadResult) (hne : 1 ≤ fields.length) (h10 : fields.length < 10) :
    processRecord o st (.ok fields) = { st with errorCount := st.errorCount + 1 } ∧
    runLoop o st (.ok fields :: rest) =
      runLoop o { st with errorCount := st.errorCount + 1 } rest ∧
    (upsertBatch honestDb [] exampleRows).toOption.map
      (fun p => (p.2.1, p.2.2, p.1.map fun r => (r.date, r.symbol, r.volume))) =
      some (1, 1, [("2024-01-01", "AAA", (1000 : Int))]) := by
  have h0 : ¬(fields.length = 0) := by omega
  have hstep : processRecord o st (.ok fields) =
      { st with errorCount := st.errorCount + 1 } := by
    simp [processRecord, h0, h10]
  exact ⟨hstep, by rw [runLoop_cons, hstep], by decide⟩

theorem c5_witness :
    processRecord honestDb ⟨[], 0, 0⟩ (.ok ["x", "y", "z"]) = ⟨[], 0, 1⟩ ∧
    runLoop honestDb ⟨[], 0, 0⟩ [ReadResult.ok ["x", "y", "z"]] = ⟨[], 0, 1⟩ ∧
    (upsertBatch honestDb [] exampleRows).toOption.map
      (fun p => (p.2.1, p.2.2, p.1.map fun r => (r.date, r.symbol, r.volume))) =
      some (1, 1, [("2024-01-01", "AAA", (1000 : Int))]) := by
  have h := c5_short_rows honestDb ⟨[], 0, 0⟩ ["x", "y", "z"] [] (by decide) (by decide)
  exact ⟨h.1, h.2.1, h.2.2⟩

/-- C6 (counterexample): a conversion failure does not always yield 0: an
open field of `1e400` overflows `float64` and `strconv` keeps +Inf alongside
the range error, and a 20-digit volume field overflows `int64` and `strconv`
keeps the clamped MaxInt64; `main.go` discards both errors, so the row built
from `overflowFields` is inserted with open = +Inf and
volume = 9223372036854775807, neither of which is 0. -/
theorem c6_counterexample :
    parseNumeric "1e400" = (GoFloat.posInf, false) ∧
    parseInt "99999999999999999999" = (9223372036854775807, false) ∧
    (upsertBatch honestDb [] [ReadResult.ok overflowFields]).toOption.map
      (fun p => p.1.map fun r => (r.open_, r.volume)) =
      some [(GoFloat.posInf, (9223372036854775807 : Int))] :=
  ⟨by decide, by decide, by decide⟩

/-- C6 (amended): in every accepted row each numeric field is converted
independently and the row is inserted (when the statement execution
succeeds) without incrementing the error count, whatever the conversion
outcomes; each stored field is exactly the value the converter keeps
alongside its discarded error: on failure that value is 0 for a syntactic
failure, ±Inf for a float out of range, and the clamped
MaxInt64/MinInt64 for an integer out of range — not always 0. -/
theorem c6_amended (o : DbOracle) (st : LoopState) (fields : List String)
    (r : MarketRecord) (h10 : 10 ≤ fields.length)
    (hr : buildRecord fields = some r) :
    r.open_ = (parseNumeric (fields.getD 4 "")).1 ∧
    r.high = (parseNumeric (fields.getD 5 "")).1 ∧
    r.low = (parseNumeric (fields.getD 6 "")).1 ∧
    r.close = (parseNumeric (fields.getD 7 "")).1 ∧
    r.volume = (parseInt (fields.getD 8 "")).1 ∧
    r.previousClose = (parseNumeric (fields.getD 9 "")).1 ∧
    (∀ t : String, (parseNumeric t).2 = false →
      (parseNumeric t).1 = GoFloat.finite 0 ∨ (parseNumeric t).1 = GoFloat.posInf ∨
        (parseNumeric t).1 = GoFloat.negInf) ∧
    (∀ t : String, (parseInt t).2 = false →
      (parseInt t).1 = 0 ∨ (parseInt t).1 = 2 ^ 63 - 1 ∨
        (parseInt t).1 = -(2 ^ 63)) ∧
    (o.execOk r = true →
      processRecord o st (.ok fields) =
        { st with pending := upsertRow st.pending r,
                  recordCount := st.recordCount + 1 }) := by
  have hbr := hr
  unfold buildRecord at hbr
  cases hpd : parseGoDate (trimSpace (fields.getD 0 "")) with
  | none =>
    rw [hpd] at hbr
    simp at hbr
  | some ymd =>
    obtain ⟨y, m, d⟩ := ymd
    rw [hpd] at hbr
    simp only [Option.some.injEq] at hbr
    subst hbr
    have h0 : ¬(fields.length = 0) := by omega
    have h10x : ¬(fields.length < 10) := by omega
    refine ⟨rfl, rfl, rfl, rfl, rfl, rfl, fun t => parseNumeric_fail t,
      fun t => (parseInt_cases t).1, fun hex => ?_⟩
    simp only [List.getD_eq_getElem?_getD] at hex
    simp [processRecord, h0, h10x, hr, hex]

theorem c6_witness :
    badNumericRecord.open_ = (parseNumeric "xx").1 ∧
    ((parseNumeric "xx").1 = GoFloat.finite 0 ∨ (parseNumeric "xx").1 = GoFloat.posInf ∨
      (parseNumeric "xx").1 = GoFloat.negInf) ∧
    ((parseInt "99999999999999999999").1 = 0 ∨
      (parseInt "99999999999999999999").1 = 2 ^ 63 - 1 ∨
      (parseInt "99999999999999999999").1 = -(2 ^ 63)) ∧
    processRecord honestDb ⟨[], 0, 0⟩ (.ok exampleBadFields) =
      ⟨[badNumericRecord], 1, 0⟩ := by
  have h := c6_amended honestDb ⟨[], 0, 0⟩ exampleBadFields badNumericRecord
    (by decide) rfl
  exact ⟨h.1, h.2.2.2.2.2.2.1 "xx" (by decide),
    h.2.2.2.2.2.2.2.1 "99999999999999999999" (by decide),
    h.2.2.2.2.2.2.2.2 rfl⟩

/-- C7: a row whose first field parses in the source's `02Jan2006`
day-month-year form is stored with that date re-emitted in canonical
`YYYY-MM-DD` form; a row whose first field fails to parse as such a date is
counted as an error, skipped, and processing continues with the subsequent
rows. -/
theorem c7_date_normalization (o : DbOracle) (st : LoopState) (fields : List String)
    (rest : List ReadResult) (h10 : 10 ≤ fields.length) :
    (∀ y m d, parseGoDate (trimSpace (fields.getD 0 "")) = some (y, m, d) →
      (buildRecord fields).isSome = true ∧
      ((buildRecord fields).getD fallbackRecord).date = formatDate y m d) ∧
    (parseGoDate (trimSpace (fields.getD 0 "")) = none →
      buildRecord fields = none ∧
      processRecord o st (.ok fields) = { st with errorCount := st.errorCount + 1 } ∧
      runLoop o st (.ok fields :: rest) =
        runLoop o { st with errorCount := st.errorCount + 1 } rest) := by
  constructor
  · intro y m d h
    have hex : ∃ r, buildRecord fields = some r ∧ r.date = formatDate y m d := by
      unfold buildRecord
      rw [h]
      exact ⟨_, rfl, rfl⟩
    obtain ⟨r, hr, hd⟩ := hex
    rw [hr]
    exact ⟨rfl, hd⟩
  · intro h
    have hb : buildRecord fields = none := by
      unfold buildRecord
      rw [h]
    have h0 : ¬(fields.length = 0) := by omega
    have h10x : ¬(fields.length < 10) := by omega
    have hstep : processRecord o st (.ok fields) =
        { st with errorCount := st.errorCount + 1 } := by
      simp [processRecord, h0, h10x, hb]
    exact ⟨hb, hstep, by rw [runLoop_cons, hstep]⟩

theorem c7_witness :
    ((buildRecord exampleFields).isSome = true ∧
      ((buildRecord exampleFields).getD fallbackRecord).date = formatDate 2024 1 1) ∧
    (buildRecord badDateFields = none ∧
      processRecord honestDb ⟨[], 0, 0⟩ (.ok badDateFields) = ⟨[], 0, 1⟩ ∧
      runLoop honestDb ⟨[], 0, 0⟩ [ReadResult.ok badDateFields] = ⟨[], 0, 1⟩) := by
  have h1 := (c7_date_normalization honestDb ⟨[], 0, 0⟩ exampleFields [] (by decide)).1
    2024 1 1 (by decide)
  have h2 := (c7_date_normalization honestDb ⟨[], 0, 0⟩ badDateFields [] (by decide)).2
    (by decide)
  exact ⟨h1, h2⟩

/-- C8: in the fixed local timezone, the scheduler's next trigger is 23:00
local today when the current local time is before 23:00 (the trigger has not
yet passed), and 23:00 local the following day when the current local time
is after 23:00. -/
theorem c8_next_trigger (now : Nat) :
    (now % 86400 < 23 * 3600 →
      nextRun now = (now / 86400) * 86400 + 23 * 3600 ∧ now ≤ nextRun now) ∧
    (23 * 3600 < now % 86400 →
      nextRun now = (now / 86400 + 1) * 86400 + 23 * 3600) := by
  constructor
  · intro h
    simp only [nextRun]
    rw [if_neg (by omega)]
    omega
  · intro h
    simp only [nextRun]
    rw [if_pos (by omega)]
    omega

theorem c8_witness :
    nextRun 79200 = (79200 / 86400) * 86400 + 23 * 3600 ∧
    nextRun (5 * 86400 + 83100) =
      ((5 * 86400 + 83100) / 86400 + 1) * 86400 + 23 * 3600 :=
  ⟨((c8_next_trigger 79200).1 (by decide)).1,
    (c8_next_trigger (5 * 86400 + 83100)).2 (by decide)⟩

/-- C9 (counterexample): a row whose volume field is the literal `-5`
parses successfully and is stored with the negative volume -5, refuting the
non-negativity invariant. -/
theorem c9_counterexample :
    parseInt "-5" = (-5, true) ∧
    (upsertBatch honestDb [] [ReadResult.ok negVolFields]).toOption.map
      (fun p => p.1.map fun r => r.volume) = some [(-5 : Int)] :=
  ⟨by decide, by decide⟩

/-- C9 (amended): the stored volume is exactly the integer value
`strconv.Atoi` keeps: 0 for an absent or syntactically invalid volume
field, the clamped MaxInt64/MinInt64 for an out-of-range field, and the
parsed integer — including negative values such as -5 — otherwise; the
stored volume therefore always lies in the `int64` range, but no
non-negativity invariant holds. -/
theorem c9_amended (fields : List String) (r : MarketRecord)
    (hr : buildRecord fields = some r) :
    r.volume = (parseInt (fields.getD 8 "")).1 ∧
    (trimSpace (fields.getD 8 "") = "" → r.volume = 0) ∧
    ((parseInt (fields.getD 8 "")).2 = false →
      r.volume = 0 ∨ r.volume = 2 ^ 63 - 1 ∨ r.volume = -(2 ^ 63)) ∧
    (-(2 ^ 63) ≤ r.volume ∧ r.volume ≤ 2 ^ 63 - 1) := by
  have hbr := hr
  unfold buildRecord at hbr
  cases hpd : parseGoDate (trimSpace (fields.getD 0 "")) with
  | none =>
    rw [hpd] at hbr
    simp at hbr
  | some ymd =>
    obtain ⟨y, m, d⟩ := ymd
    rw [hpd] at hbr
    simp only [Option.some.injEq] at hbr
    subst hbr
    refine ⟨rfl, fun h => ?_, fun h => (parseInt_cases _).1 h, (parseInt_cases _).2⟩
    show (parseInt (fields.getD 8 "")).1 = 0
    simp only [parseInt]
    rw [h]
    rfl

theorem c9_witness :
    unparsableVolRecord.volume = (parseInt "zz").1 ∧
    (unparsableVolRecord.volume = 0 ∨ unparsableVolRecord.volume = 2 ^ 63 - 1 ∨
      unparsableVolRecord.volume = -(2 ^ 63)) ∧
    unparsableVolRecord.volume = 0 ∧
    -(2 ^ 63) ≤ unparsableVolRecord.volume ∧ unparsableVolRecord.volume ≤ 2 ^ 63 - 1 := by
  have h := c9_amended unparsableVolFields unparsableVolRecord rfl
  exact ⟨h.1, h.2.2.1 (by decide), by decide, h.2.2.2⟩

/-- C10: a record that tokenizes to zero fields is skipped silently: the
loop state is unchanged (the row is excluded from the inserted count and,
unlike a reader error, it does not increment the error count) and
processing continues with the remaining rows. -/
theorem c10_empty_record_skipped (o : DbOracle) (st : LoopState)
    (rest : List ReadResult) :
    processRecord o st (.ok []) = st ∧
    (processRecord o st (.ok [])).recordCount = st.recordCount ∧
    (processRecord o st (.ok [])).errorCount = st.errorCount ∧
    (processRecord o st ReadResult.err).errorCount = st.errorCount + 1 ∧
    runLoop o st (.ok [] :: rest) = runLoop o st rest :=
  ⟨rfl, rfl, rfl, rfl, rfl⟩
